import Mathlib

/-!
Verification of the technical-indicator computation engine of the
option-chain dashboard (shallow embedding of the TypeScript chart
components).

Numeric model: the TypeScript code computes with IEEE doubles; here prices
are embedded as exact rationals (`ℚ`) for the indicators whose arithmetic
is field arithmetic, and as reals (`ℝ`) for the indicators that take a
square root (Bollinger bands, TTM squeeze) or feed one.  A JavaScript
`null` entry of an output array is embedded as `Option.none`; date labels
(ISO strings, compared via `Date.getTime()`) are embedded as their integer
timestamps, and an out-of-range `dates[i]` access (JavaScript `undefined`)
as `dates[i]? = none`.
-/

namespace OptionChain

/-! ## Shared windowing helpers

`windowAt prices period i` is `prices.slice(i - period + 1, i + 1)` for an
in-range index `i ≥ period - 1`, and `smaAt` is the simple moving average
`slice.reduce((sum, price) => sum + price, 0) / period` computed over that
window in the Bollinger/Keltner/TTM code. -/

def windowAt {α : Type} (prices : List α) (period i : ℕ) : List α :=
  (prices.drop (i + 1 - period)).take period

def smaAt {α : Type} [DivisionRing α] (prices : List α) (period i : ℕ) : α :=
  (windowAt prices period i).sum / (period : α)

/-- Consecutive differences `prices[i] - prices[i-1]`, `i = 1 .. len-1`. -/
def diffs {α : Type} [Sub α] (prices : List α) : List α :=
  List.zipWith (fun prev cur => cur - prev) prices prices.tail

/-! ## EMA (`calculateEMA`, chart-price-call / chart-macd components)

```
if (prices.length < period) { push null for every i; return }
let sum = Σ prices[0..period-1]; ema[0..period-2] = null; ema[period-1] = sum/period;
for i ≥ period: ema[i] = prices[i]*k + ema[i-1]*(1-k),  k = 2/(period+1)
```
`emaValAux n` is the EMA value at array index `period - 1 + n`. -/

def emaMultiplier (period : ℕ) : ℚ := 2 / ((period : ℚ) + 1)

def emaSeed (prices : List ℚ) (period : ℕ) : ℚ :=
  (prices.take period).sum / (period : ℚ)

def emaValAux (prices : List ℚ) (period : ℕ) : ℕ → ℚ
  | 0 => emaSeed prices period
  | n + 1 =>
      prices.getD (period + n) 0 * emaMultiplier period
        + emaValAux prices period n * (1 - emaMultiplier period)

def calculateEMA (prices : List ℚ) (period : ℕ) : List (Option ℚ) :=
  if prices.length < period then
    List.replicate prices.length none
  else
    (List.range prices.length).map fun i =>
      if i < period - 1 then none
      else some (emaValAux prices period (i - (period - 1)))

/-! ## MACD (`calculateMACD`, identical in both chart components) -/

/-- Position-wise difference used for the MACD line and the histogram:
`null` unless both inputs are non-`null`. -/
def optSub (a b : Option ℚ) : Option ℚ :=
  match a, b with
  | some x, some y => some (x - y)
  | _, _ => none

/-- The signal-line realignment loop: walk the MACD line, hand the next
pending signal-line entry to each non-`null` MACD position (or `null` when
the signal line is exhausted), and `null` to each `null` MACD position. -/
def alignSignal : List (Option ℚ) → List (Option ℚ) → List (Option ℚ)
  | [], _ => []
  | none :: ms, s => none :: alignSignal ms s
  | some _ :: ms, [] => none :: alignSignal ms []
  | some _ :: ms, v :: s => v :: alignSignal ms s

structure MacdData where
  macd : List (Option ℚ)
  signal : List (Option ℚ)
  histogram : List (Option ℚ)
deriving DecidableEq, Repr

def calculateMACD (prices : List ℚ) (fastPeriod slowPeriod signalPeriod : ℕ) :
    MacdData :=
  if prices.length < slowPeriod then
    { macd := List.replicate prices.length none
      signal := List.replicate prices.length none
      histogram := List.replicate prices.length none }
  else
    let fastEMA := calculateEMA prices fastPeriod
    let slowEMA := calculateEMA prices slowPeriod
    let macdLine := List.zipWith optSub fastEMA slowEMA
    let signalLine := calculateEMA (macdLine.filterMap id) signalPeriod
    let alignedSignalLine := alignSignal macdLine signalLine
    let histogram := List.zipWith optSub macdLine alignedSignalLine
    { macd := macdLine, signal := alignedSignalLine, histogram := histogram }

/-! ## RSI (`calculateRSI`, identical in the call chart and the dedicated
RSI component)

```
if (prices.length < period + 1) { push null for every i; return }
gains[i-1] = max(Δ,0), losses[i-1] = |min(Δ,0)| for Δ = prices[i]-prices[i-1]
rsiData.push(null)                       // one null, "for first price"
avgGain/avgLoss ← plain mean of gains[0..period-1] / losses[0..period-1]
rsiData.push(rsi(avgGain, avgLoss))
for i = period+1 .. prices.length-1:     // Wilder update with gains[i-1]
  avg ← (avg*(period-1) + value)/period; rsiData.push(rsi(avgGain, avgLoss))
```
Note the main branch pushes `2 + (len - period - 1)` entries, not `len`. -/

def rsiValue (avgGain avgLoss : ℚ) : ℚ :=
  if avgLoss = 0 then 100 else 100 - 100 / (1 + avgGain / avgLoss)

def rsiAux (period : ℕ) (avgGain avgLoss : ℚ) : List (ℚ × ℚ) → List ℚ
  | [] => []
  | (gain, loss) :: rest =>
      let avgGain2 := (avgGain * ((period : ℚ) - 1) + gain) / (period : ℚ)
      let avgLoss2 := (avgLoss * ((period : ℚ) - 1) + loss) / (period : ℚ)
      rsiValue avgGain2 avgLoss2 :: rsiAux period avgGain2 avgLoss2 rest

def calculateRSI (prices : List ℚ) (period : ℕ) : List (Option ℚ) :=
  if prices.length < period + 1 then
    List.replicate prices.length none
  else
    let ds := diffs prices
    let gains := ds.map fun change => if change > 0 then change else 0
    let losses := ds.map fun change => if change < 0 then -change else 0
    let avgGain := (gains.take period).sum / (period : ℚ)
    let avgLoss := (losses.take period).sum / (period : ℚ)
    none :: some (rsiValue avgGain avgLoss) ::
      (rsiAux period avgGain avgLoss
        ((gains.drop period).zip (losses.drop period))).map some

/-! ## DMI / ADX (`ChartDmiComponent.calculateDMI` with
`wildersSmoothing`, the dedicated DMI component) -/

/-- Wilder smoothing: returns `[]` when there are fewer than `period`
values; otherwise the first output is the plain mean of the first `period`
values and each later one is `(prev*(period-1) + value)/period`. -/
def wildersAux (period : ℕ) (prev : ℚ) : List ℚ → List ℚ
  | [] => []
  | v :: vs =>
      let next := (prev * ((period : ℚ) - 1) + v) / (period : ℚ)
      next :: wildersAux period next vs

def wildersSmoothing (values : List ℚ) (period : ℕ) : List ℚ :=
  if values.length < period then []
  else
    let seed := (values.take period).sum / (period : ℚ)
    seed :: wildersAux period seed (values.drop period)

/-- The per-step `(+DM, -DM)` pair: `upMove = Δ`, `downMove = -Δ`;
`(upMove, 0)` when `upMove > downMove ∧ upMove > 0`, `(0, downMove)` when
`downMove > upMove ∧ downMove > 0`, else `(0, 0)`. -/
def dmPair (change : ℚ) : ℚ × ℚ :=
  if change > -change ∧ change > 0 then (change, 0)
  else if -change > change ∧ -change > 0 then (0, -change)
  else (0, 0)

/-- One iteration of the `+DI`, `-DI`, `DX` loop: with smoothed TR `tr` and
smoothed `±DM`, yields `(plusDI, minusDI, dx)`, guarding `tr = 0` (all
three zero) and `+DI + -DI = 0` (`dx = 0`). -/
def diTriple (tr pdm mdm : ℚ) : ℚ × ℚ × ℚ :=
  if tr = 0 then (0, 0, 0)
  else
    let plusDI := pdm / tr * 100
    let minusDI := mdm / tr * 100
    let diSum := plusDI + minusDI
    let dx := if diSum = 0 then 0 else |plusDI - minusDI| / diSum * 100
    (plusDI, minusDI, dx)

structure DmiData where
  plusDI : List (Option ℚ)
  minusDI : List (Option ℚ)
  adx : List (Option ℚ)
deriving DecidableEq, Repr

/-- The source's `smoothedTR`: Wilder's smoothing of the true-range series
`|prices[i] - prices[i-1]|`. -/
def dmiSmoothedTR (prices : List ℚ) (period : ℕ) : List ℚ :=
  wildersSmoothing ((diffs prices).map fun change => |change|) period

/-- The source's `smoothedPlusDM`: Wilder's smoothing of the `+DM` series. -/
def dmiSmoothedPlusDM (prices : List ℚ) (period : ℕ) : List ℚ :=
  wildersSmoothing ((diffs prices).map fun change => (dmPair change).1) period

/-- The source's `smoothedMinusDM`: Wilder's smoothing of the `-DM` series. -/
def dmiSmoothedMinusDM (prices : List ℚ) (period : ℕ) : List ℚ :=
  wildersSmoothing ((diffs prices).map fun change => (dmPair change).2) period

/-- The `(plusDI, minusDI, dx)` triple computed at each smoothed index by
the `for i < smoothedTR.length` loop. -/
def dmiTriples (prices : List ℚ) (period : ℕ) : List (ℚ × ℚ × ℚ) :=
  List.zipWith (fun tr (dm : ℚ × ℚ) => diTriple tr dm.1 dm.2)
    (dmiSmoothedTR prices period)
    (List.zip (dmiSmoothedPlusDM prices period) (dmiSmoothedMinusDM prices period))

def dmiPlusDIValues (prices : List ℚ) (period : ℕ) : List ℚ :=
  (dmiTriples prices period).map fun t => t.1

def dmiMinusDIValues (prices : List ℚ) (period : ℕ) : List ℚ :=
  (dmiTriples prices period).map fun t => t.2.1

def dmiDxValues (prices : List ℚ) (period : ℕ) : List ℚ :=
  (dmiTriples prices period).map fun t => t.2.2

/-- The source's `adxValues`: Wilder's smoothing of the DX series. -/
def dmiAdxValues (prices : List ℚ) (period : ℕ) : List ℚ :=
  wildersSmoothing (dmiDxValues prices period) period

/-- The output-assembly loop of `ChartDmiComponent.calculateDMI`: `null`
padding for `i < period`, `plusDIValues[i - period]` afterwards (while in
range), and ADX gated by `i < period*2 - 1 || diIndex >= adxValues.length`
with `adxIndex = diIndex - (period - 1)`. -/
def calculateDMI (prices : List ℚ) (period : ℕ) : DmiData :=
  if prices.length < period + 1 then
    { plusDI := List.replicate prices.length none
      minusDI := List.replicate prices.length none
      adx := List.replicate prices.length none }
  else
    { plusDI := (List.range prices.length).map fun i =>
        if i < period then none
        else if i - period < (dmiPlusDIValues prices period).length then
          some ((dmiPlusDIValues prices period).getD (i - period) 0)
        else none
      minusDI := (List.range prices.length).map fun i =>
        if i < period then none
        else if i - period < (dmiMinusDIValues prices period).length then
          some ((dmiMinusDIValues prices period).getD (i - period) 0)
        else none
      adx := (List.range prices.length).map fun i =>
        if i < period then none
        else if i - period < (dmiPlusDIValues prices period).length then
          if i < period * 2 - 1 ∨ (dmiAdxValues prices period).length ≤ i - period then
            none
          else if i - period - (period - 1) < (dmiAdxValues prices period).length then
            some ((dmiAdxValues prices period).getD (i - period - (period - 1)) 0)
          else none
        else none }

/-! ## Linear regression (`linearRegression`, chart-ttm-squeeze component)

The loop accumulates `sumX`, `sumY`, `sumXY`, `sumX2` over `i = 0..n-1`;
`denominator = n*sumX2 - sumX*sumX`; on `denominator === 0` the code
returns `values[n-1]`. -/

def lrSumX (n : ℕ) : ℝ := ((List.range n).map fun i => (i : ℝ)).sum

def lrSumX2 (n : ℕ) : ℝ := ((List.range n).map fun i => (i : ℝ) * (i : ℝ)).sum

def lrSumXY (values : List ℝ) : ℝ :=
  (values.enum.map fun p => (p.1 : ℝ) * p.2).sum

def lrDenominator (values : List ℝ) : ℝ :=
  (values.length : ℝ) * lrSumX2 values.length
    - lrSumX values.length * lrSumX values.length

noncomputable def linearRegression (values : List ℝ) : ℝ :=
  let n := values.length
  if n = 0 then 0
  else if n = 1 then values.getD 0 0
  else if lrDenominator values = 0 then values.getD (n - 1) 0
  else
    let slope := ((n : ℝ) * lrSumXY values - lrSumX n * values.sum)
      / lrDenominator values
    let intercept := (values.sum - slope * lrSumX n) / (n : ℝ)
    intercept + slope * ((n : ℝ) - 1)

/-! ## Bollinger Bands and Keltner Channels (`calculateBollingerBands`,
`calculateKeltnerChannels`, chart-price-call component) -/

structure BandData where
  upperBand : List (Option ℝ)
  middleBand : List (Option ℝ)
  lowerBand : List (Option ℝ)

noncomputable def bollingerEntry (prices : List ℝ) (period : ℕ) (standardDeviations : ℝ)
    (i : ℕ) : Option ℝ × Option ℝ × Option ℝ :=
  if i < period - 1 then (none, none, none)
  else
    let slice := windowAt prices period i
    let sma := slice.sum / (period : ℝ)
    let variance := (slice.map fun price => (price - sma) ^ 2).sum / (period : ℝ)
    let stdDev := Real.sqrt variance
    (some (sma + standardDeviations * stdDev), some sma,
     some (sma - standardDeviations * stdDev))

noncomputable def calculateBollingerBands (prices : List ℝ) (period : ℕ)
    (standardDeviations : ℝ) : BandData :=
  let entries := (List.range prices.length).map
    (bollingerEntry prices period standardDeviations)
  { upperBand := entries.map fun e => e.1
    middleBand := entries.map fun e => e.2.1
    lowerBand := entries.map fun e => e.2.2 }

noncomputable def keltnerEntry (prices : List ℝ) (period : ℕ) (multiplier : ℝ)
    (i : ℕ) : Option ℝ × Option ℝ × Option ℝ :=
  if i < period - 1 then (none, none, none)
  else
    let slice := windowAt prices period i
    let sma := slice.sum / (period : ℝ)
    let trueRanges := (diffs slice).map fun tr => |tr|
    let atr := trueRanges.sum / (trueRanges.length : ℝ)
    (some (sma + multiplier * atr), some sma, some (sma - multiplier * atr))

noncomputable def calculateKeltnerChannels (prices : List ℝ) (period : ℕ)
    (multiplier : ℝ) : BandData :=
  let entries := (List.range prices.length).map (keltnerEntry prices period multiplier)
  { upperBand := entries.map fun e => e.1
    middleBand := entries.map fun e => e.2.1
    lowerBand := entries.map fun e => e.2.2 }

/-! ## TTM Squeeze (`calculateTTMSqueeze` + second colouring pass,
chart-ttm-squeeze component) -/

/-- The per-window midpoint `((max+min)/2 + sma)/2` recomputed for an inner
index `k` of the regression window (the `kSlice` block of the source). -/
noncomputable def midpointAt (prices : List ℝ) (period k : ℕ) : ℝ :=
  let kSlice := windowAt prices period k
  let kSma := kSlice.sum / (period : ℝ)
  let kHighest := kSlice.max?.getD 0
  let kLowest := kSlice.min?.getD 0
  let kDonchianMid := (kHighest + kLowest) / 2
  (kDonchianMid + kSma) / 2

/-- The value series fed to the regression at index `i`: inner indices
`k = i-period+1 .. i` with `k ≥ period-1`, value `prices[k] - midpoint(k)`. -/
noncomputable def ttmValSeries (prices : List ℝ) (period i : ℕ) : List ℝ :=
  ((List.range' (i + 1 - period) period).filter fun k => period - 1 ≤ k).map
    fun k => prices.getD k 0 - midpointAt prices period k

/-- One first-pass iteration: `(upperBand, lowerBand, rawMomentum, squeeze)`
at index `i`; the warm-up branch (`i < period - 1`) pushes three `null`s and
the literal `false`. -/
noncomputable def ttmEntry (prices : List ℝ) (period : ℕ)
    (kcMultiplier bbMultiplier : ℝ) (i : ℕ) :
    Option ℝ × Option ℝ × Option ℝ × Bool :=
  if i < period - 1 then (none, none, none, false)
  else
    let slice := windowAt prices period i
    let trueRanges := (diffs slice).map fun tr => |tr|
    let avgTrueRange := trueRanges.sum / (trueRanges.length : ℝ)
    let sma := slice.sum / (period : ℝ)
    let kcUpper := sma + kcMultiplier * avgTrueRange
    let kcLower := sma - kcMultiplier * avgTrueRange
    let variance := (slice.map fun price => (price - sma) ^ 2).sum / (period : ℝ)
    let stdDev := Real.sqrt variance
    let bbUpper := sma + bbMultiplier * stdDev
    let bbLower := sma - bbMultiplier * stdDev
    let isInSqueeze := bbUpper < kcUpper ∧ bbLower > kcLower
    let linRegValue := linearRegression (ttmValSeries prices period i)
    (some kcUpper, some kcLower, some linRegValue, decide isInSqueeze)

/-- Second-pass bar colour for a defined momentum value, from
`(isPositive, isIncreasing)`; a missing previous value counts as
increasing. -/
noncomputable def ttmColor (cur : ℝ) (prev : Option ℝ) : String :=
  let isPositive := decide ((0 : ℝ) ≤ cur)
  let isIncreasing := match prev with
    | some p => decide (p < cur)
    | none => true
  if isPositive then
    if isIncreasing then "#2196F3" else "#00BCD4"
  else
    if isIncreasing then "#FFEB3B" else "#F44336"

structure TtmSqueezeData where
  upperBand : List (Option ℝ)
  lowerBand : List (Option ℝ)
  momentum : List (Option ℝ)
  squeeze : List Bool
  histogram : List (Option ℝ)
  barColors : List String

/-- First pass builds `upperBand`/`lowerBand`/`rawMomentum`/`squeeze`; the
second pass copies each `rawMomentum` entry unchanged into `momentum` and
`histogram` (`null` stays `null`) and derives the bar colours. -/
noncomputable def calculateTTMSqueeze (prices : List ℝ) (period : ℕ)
    (kcMultiplier bbMultiplier : ℝ) : TtmSqueezeData :=
  let entries := (List.range prices.length).map
    (ttmEntry prices period kcMultiplier bbMultiplier)
  let rawMomentum := entries.map fun e => e.2.2.1
  { upperBand := entries.map fun e => e.1
    lowerBand := entries.map fun e => e.2.1
    momentum := rawMomentum
    squeeze := entries.map fun e => e.2.2.2
    histogram := rawMomentum
    barColors := (List.range rawMomentum.length).map fun i =>
      match rawMomentum.getD i none with
      | none => "rgba(128, 128, 128, 0.5)"
      | some cur => ttmColor cur (if i = 0 then none else rawMomentum.getD (i - 1) none) }

/-! ## Demand/supply zone detector (`calculateDemandSupplyZones`,
chart-price-put component; lookback 5, min strength 2, tolerance 2%).

Date labels are embedded as integer timestamps; `dates[index]` is
`dates[index]?` (`none` = JavaScript `undefined` on an out-of-range
read).  `Array.prototype.sort` is stable and the ES specification treats a
`NaN` comparator result (an invalid/missing date) as equality, so the
descending sort is a stable insertion sort whose comparator answers
`false` unless both end dates are present. -/

structure Zone where
  price : ℚ
  touches : ℕ
  startDate : Option ℤ
  endDate : Option ℤ
deriving DecidableEq, Repr, Inhabited

inductive SwingType where
  | high
  | low
deriving DecidableEq, Repr

def isSwingHigh (prices : List ℚ) (lookback i : ℕ) : Bool :=
  (List.range' (i - lookback) (2 * lookback + 1)).all fun j =>
    j = i ∨ prices.getD j 0 < prices.getD i 0

def isSwingLow (prices : List ℚ) (lookback i : ℕ) : Bool :=
  (List.range' (i - lookback) (2 * lookback + 1)).all fun j =>
    j = i ∨ prices.getD i 0 < prices.getD j 0

def swingPoints (prices : List ℚ) (lookback : ℕ) : List (ℕ × ℚ × SwingType) :=
  (List.range' lookback (prices.length - 2 * lookback)).filterMap fun i =>
    if isSwingHigh prices lookback i then some (i, prices.getD i 0, SwingType.high)
    else if isSwingLow prices lookback i then some (i, prices.getD i 0, SwingType.low)
    else none

/-- The inner matching loop: scan the zone list for the first zone with
`|price - zone.price| / zone.price ≤ tolerance`; update it (touch count
incremented, end date advanced, price anchor untouched) and stop.  `none`
when no zone matches. -/
def updateFirstMatch (tolerance price : ℚ) (date : Option ℤ) :
    List Zone → Option (List Zone)
  | [] => none
  | zone :: rest =>
      if |price - zone.price| / zone.price ≤ tolerance then
        some ({ zone with touches := zone.touches + 1, endDate := date } :: rest)
      else (updateFirstMatch tolerance price date rest).map fun zs => zone :: zs

/-- Processing one swing point `(index, price)` against the accumulated
zone list: update the first matching zone, or append a fresh zone with one
touch. -/
def zoneStep (tolerance : ℚ) (dates : List ℤ) (zones : List Zone)
    (p : ℕ × ℚ) : List Zone :=
  match updateFirstMatch tolerance p.2 dates[p.1]? zones with
  | some updated => updated
  | none => zones ++
      [{ price := p.2, touches := 1, startDate := dates[p.1]?,
         endDate := dates[p.1]? }]

def laterThan (a b : Zone) : Bool :=
  match a.endDate, b.endDate with
  | some x, some y => decide (y < x)
  | _, _ => false

def insertByEndDate (z : Zone) : List Zone → List Zone
  | [] => [z]
  | w :: ws => if laterThan z w then z :: w :: ws else w :: insertByEndDate z ws

def sortByEndDateDesc (zones : List Zone) : List Zone :=
  zones.foldr insertByEndDate []

def calculateDemandSupplyZones (prices : List ℚ) (dates : List ℤ) :
    List Zone × List Zone :=
  if prices.length < 10 then ([], [])
  else
    let lookbackPeriod := 5
    let minZoneStrength := 2
    let tolerance : ℚ := 2 / 100
    let points := swingPoints prices lookbackPeriod
    let swingLows := (points.filter fun p => p.2.2 = SwingType.low).map
      fun p => (p.1, p.2.1)
    let swingHighs := (points.filter fun p => p.2.2 = SwingType.high).map
      fun p => (p.1, p.2.1)
    let demandZones := swingLows.foldl (zoneStep tolerance dates) []
    let supplyZones := swingHighs.foldl (zoneStep tolerance dates) []
    ((sortByEndDateDesc (demandZones.filter fun z => minZoneStrength ≤ z.touches)).take 5,
     (sortByEndDateDesc (supplyZones.filter fun z => minZoneStrength ≤ z.touches)).take 5)

/-! ## Concrete inputs used by the zone-detector theorems

A 17-point series whose only swing points are two swing lows, `100` at
index 5 and `101` at index 11 (within the 2% tolerance of each other), with
the aligned date labels `0..16`. -/

def zoneExamplePrices : List ℚ :=
  [103, 104, 105, 106, 107, 100, 102, 103, 104, 105, 106, 101, 103, 104, 105, 106, 107]

def zoneExampleDates : List ℤ :=
  [0, 1, 2, 3, 4, 5, 6, 7, 8, 9, 10, 11, 12, 13, 14, 15, 16]

/-! ## Supporting lemmas -/

lemma getD_map_range {β : Type} (f : ℕ → β) (d : β) {n i : ℕ} (h : i < n) :
    ((List.range n).map f).getD i d = f i := by
  rw [List.getD_eq_getElem?_getD, List.getElem?_map, List.getElem?_range h]
  rfl

lemma getD_replicate {β : Type} (a d : β) {n i : ℕ} (h : i < n) :
    (List.replicate n a).getD i d = a := by
  rw [List.getD_eq_getElem?_getD, List.getElem?_replicate]
  simp [h]

lemma getD_zipWith {α β γ : Type} (f : α → β → γ) (l1 : List α) (l2 : List β)
    (i : ℕ) (d1 : α) (d2 : β) (d3 : γ) (h1 : i < l1.length) (h2 : i < l2.length) :
    (List.zipWith f l1 l2).getD i d3 = f (l1.getD i d1) (l2.getD i d2) := by
  induction l1 generalizing l2 i with
  | nil => simp at h1
  | cons a l1 ih =>
    cases l2 with
    | nil => simp at h2
    | cons b l2 =>
      cases i with
      | zero => rfl
      | succ i => simpa using ih l2 i (by simpa using h1) (by simpa using h2)

lemma length_calculateEMA (prices : List ℚ) (period : ℕ) :
    (calculateEMA prices period).length = prices.length := by
  unfold calculateEMA
  split <;> simp

lemma length_alignSignal (ms s : List (Option ℚ)) :
    (alignSignal ms s).length = ms.length := by
  induction ms generalizing s with
  | nil => simp [alignSignal]
  | cons m ms ih =>
    cases m with
    | none => simpa [alignSignal] using ih s
    | some x =>
      cases s with
      | nil => simpa [alignSignal] using ih []
      | cons v vs => simpa [alignSignal] using ih vs

/-! ## Claim theorems -/

/-- C1 (code bug witness): with `prices = [1,2,3,4]` and `period = 2`
(so `len = 4 ≥ period + 1`), the RSI computation returns an array of
length 3 whose first defined value sits at index 1 — not an array of
length 4 with the warm-up prefix `null` up to the first value at index
`period = 2`, as every other indicator (and the chart aligning `rsiData`
with the full `dates` axis, including the function's own short-input
branch which does emit one `null` per input) requires. -/
theorem rsi_output_misaligned :
    calculateRSI [1, 2, 3, 4] 2 = [none, some 100, some 100] ∧
    (calculateRSI [1, 2, 3, 4] 2).length ≠ ([1, 2, 3, 4] : List ℚ).length := by
  have h : calculateRSI [1, 2, 3, 4] 2 = [none, some 100, some 100] := by
    norm_num [calculateRSI, diffs, rsiValue, rsiAux]
  exact ⟨h, by rw [h]; norm_num⟩

/-- C3: when `len(S) < P` every EMA position is absent; otherwise every
position before `P - 1` is absent and the seed value at index `P - 1`
equals the simple moving average of the first `P` values (the same
window-average `smaAt` used by the Bollinger middle band). -/
theorem ema_seed_equals_sma (prices : List ℚ) (period : ℕ) (hp : 1 ≤ period) :
    (prices.length < period →
      calculateEMA prices period = List.replicate prices.length none) ∧
    (period ≤ prices.length →
      (calculateEMA prices period).getD (period - 1) none
          = some (smaAt prices period (period - 1)) ∧
      ∀ i, i < period - 1 → (calculateEMA prices period).getD i none = none) := by
  constructor
  · intro h
    simp [calculateEMA, h]
  · intro h
    have hlen : ¬ prices.length < period := not_lt.mpr h
    have hseed : period - 1 < prices.length := by omega
    constructor
    · rw [calculateEMA, if_neg hlen, getD_map_range _ _ hseed, if_neg (lt_irrefl _)]
      have hz : period - 1 - (period - 1) = 0 := by omega
      rw [hz]
      have hw : period - 1 + 1 - period = 0 := by omega
      simp [emaValAux, emaSeed, smaAt, windowAt, hw]
    · intro i hi
      have hi' : i < prices.length := by omega
      rw [calculateEMA, if_neg hlen, getD_map_range _ _ hi', if_pos hi]

/-- C3 witness: `EMA([1,2,3], 2)` has an absent position 0 and its seed
`EMA[1] = (1+2)/2 = 3/2 = SMA[1]`. -/
theorem ema_seed_equals_sma_witness :
    (calculateEMA [1, 2, 3] 2).getD 1 none = some (smaAt [1, 2, 3] 2 1) ∧
    (calculateEMA [1, 2, 3] 2).getD 0 none = none := by
  have h := (ema_seed_equals_sma [1, 2, 3] 2 (by norm_num)).2 (by norm_num)
  exact ⟨h.1, h.2 0 (by norm_num)⟩

/-- C5: the four zero-denominator guards produce defined fallback values:
`rsiValue` returns exactly 100 when the average loss is 0; `diTriple`
returns `(0, 0, 0)` when the smoothed true range is 0; the DX component of
`diTriple` is 0 when `+DI + -DI = 0`; and `linearRegression` returns the
last input value when its denominator `n·Σx² - (Σx)²` is 0. -/
theorem zero_denominator_fallbacks :
    (∀ avgGain : ℚ, rsiValue avgGain 0 = 100) ∧
    (∀ pdm mdm : ℚ, diTriple 0 pdm mdm = (0, 0, 0)) ∧
    (∀ tr pdm mdm : ℚ, tr ≠ 0 → pdm / tr * 100 + mdm / tr * 100 = 0 →
      (diTriple tr pdm mdm).2.2 = 0) ∧
    (∀ values : List ℝ, values ≠ [] → lrDenominator values = 0 →
      linearRegression values = values.getD (values.length - 1) 0) := by
  refine ⟨fun avgGain => ?_, fun pdm mdm => ?_, fun tr pdm mdm htr hsum => ?_,
    fun values hne hden => ?_⟩
  · simp [rsiValue]
  · simp [diTriple]
  · simp [diTriple, htr, hsum]
  · have hn0 : values.length ≠ 0 := by simpa using hne
    by_cases h1 : values.length = 1
    · simp [linearRegression, hn0, h1]
    · simp [linearRegression, hn0, h1, hden]

/-- C5 witness: each fallback evaluated at a concrete zero-denominator
input. -/
theorem zero_denominator_fallbacks_witness :
    rsiValue 3 0 = 100 ∧ diTriple 0 1 1 = (0, 0, 0) ∧
    (diTriple 1 1 (-1)).2.2 = 0 ∧ linearRegression [(5 : ℝ)] = 5 := by
  have hden : lrDenominator [(5 : ℝ)] = 0 := by
    norm_num [lrDenominator, lrSumX, lrSumX2, List.range_succ]
  refine ⟨zero_denominator_fallbacks.1 3, zero_denominator_fallbacks.2.1 1 1, ?_, ?_⟩
  · refine zero_denominator_fallbacks.2.2.1 1 1 (-1) (by norm_num) (by norm_num)
  · have h := zero_denominator_fallbacks.2.2.2 [(5 : ℝ)] (by simp) hden
    simpa using h

/-- C2: all three MACD outputs have one entry per input position; when
`len(prices) < slowPeriod` every position of every output is absent; and
the histogram is absent at exactly the positions where the MACD line or
the realigned signal line is absent, while wherever both are defined it
equals their exact difference. -/
theorem macd_histogram_difference (prices : List ℚ)
    (fastPeriod slowPeriod signalPeriod : ℕ) :
    (calculateMACD prices fastPeriod slowPeriod signalPeriod).macd.length
        = prices.length ∧
    (calculateMACD prices fastPeriod slowPeriod signalPeriod).signal.length
        = prices.length ∧
    (calculateMACD prices fastPeriod slowPeriod signalPeriod).histogram.length
        = prices.length ∧
    (prices.length < slowPeriod → ∀ i, i < prices.length →
      (calculateMACD prices fastPeriod slowPeriod signalPeriod).macd.getD i none
          = none ∧
      (calculateMACD prices fastPeriod slowPeriod signalPeriod).signal.getD i none
          = none ∧
      (calculateMACD prices fastPeriod slowPeriod signalPeriod).histogram.getD i none
          = none) ∧
    (∀ i, i < prices.length →
      ((calculateMACD prices fastPeriod slowPeriod signalPeriod).histogram.getD i none
            = none ↔
        (calculateMACD prices fastPeriod slowPeriod signalPeriod).macd.getD i none
            = none ∨
        (calculateMACD prices fastPeriod slowPeriod signalPeriod).signal.getD i none
            = none) ∧
      ∀ x y,
        (calculateMACD prices fastPeriod slowPeriod signalPeriod).macd.getD i none
            = some x →
        (calculateMACD prices fastPeriod slowPeriod signalPeriod).signal.getD i none
            = some y →
        (calculateMACD prices fastPeriod slowPeriod signalPeriod).histogram.getD i none
            = some (x - y)) := by
  by_cases h : prices.length < slowPeriod
  · refine ⟨by simp [calculateMACD, h], by simp [calculateMACD, h],
      by simp [calculateMACD, h], fun _ i hi => ?_, fun i hi => ?_⟩
    · simp only [calculateMACD, if_pos h]
      exact ⟨getD_replicate _ _ hi, getD_replicate _ _ hi, getD_replicate _ _ hi⟩
    · simp only [calculateMACD, if_pos h]
      refine ⟨?_, ?_⟩
      · rw [getD_replicate _ _ hi]
        simp
      · intro x y hx
        rw [getD_replicate _ _ hi] at hx
        exact absurd hx (by simp)
  · have hF := length_calculateEMA prices fastPeriod
    have hS := length_calculateEMA prices slowPeriod
    set M := List.zipWith optSub (calculateEMA prices fastPeriod)
      (calculateEMA prices slowPeriod) with hMdef
    set A := alignSignal M (calculateEMA (M.filterMap id) signalPeriod) with hAdef
    have hMlen : M.length = prices.length := by
      rw [hMdef]
      simp [List.length_zipWith, hF, hS]
    have hAlen : A.length = M.length := length_alignSignal _ _
    have hcalc : calculateMACD prices fastPeriod slowPeriod signalPeriod
        = ⟨M, A, List.zipWith optSub M A⟩ := by
      simp only [calculateMACD, if_neg h, hMdef, hAdef]
    refine ⟨?_, ?_, ?_, fun h' => absurd h' h, fun i hi => ?_⟩
    · rw [hcalc]
      exact hMlen
    · rw [hcalc]
      exact hAlen.trans hMlen
    · rw [hcalc]
      simp [List.length_zipWith, hMlen, hAlen.trans hMlen]
    · have h1 : i < M.length := hMlen ▸ hi
      have h2 : i < A.length := by
        rw [hAlen]
        exact h1
      have hH : (List.zipWith optSub M A).getD i none
          = optSub (M.getD i none) (A.getD i none) :=
        getD_zipWith optSub M A i none none none h1 h2
      rw [hcalc]
      dsimp only
      rcases hm : M.getD i none with _ | x <;>
        rcases ha : A.getD i none with _ | y <;>
        rw [hH, hm, ha] <;> simp [optSub]

/-- C2 witness: `MACD([1,2,3], 1, 2, 1)` at position 2. -/
theorem macd_histogram_difference_witness :
    (calculateMACD [1, 2, 3] 1 2 1).histogram.length = 3 ∧
    ((calculateMACD [1, 2, 3] 1 2 1).histogram.getD 2 none = none ↔
      (calculateMACD [1, 2, 3] 1 2 1).macd.getD 2 none = none ∨
      (calculateMACD [1, 2, 3] 1 2 1).signal.getD 2 none = none) := by
  have h := macd_histogram_difference [1, 2, 3] 1 2 1
  exact ⟨by simpa using h.2.2.1, (h.2.2.2.2 2 (by norm_num)).1⟩

lemma bollinger_getD (prices : List ℝ) (period : ℕ) (sd : ℝ) {i : ℕ}
    (hi : i < prices.length) :
    (calculateBollingerBands prices period sd).upperBand.getD i none
        = (bollingerEntry prices period sd i).1 ∧
    (calculateBollingerBands prices period sd).middleBand.getD i none
        = (bollingerEntry prices period sd i).2.1 ∧
    (calculateBollingerBands prices period sd).lowerBand.getD i none
        = (bollingerEntry prices period sd i).2.2 := by
  unfold calculateBollingerBands
  refine ⟨?_, ?_, ?_⟩ <;>
    · dsimp only
      rw [List.map_map, getD_map_range _ _ hi]
      rfl

lemma keltner_getD (prices : List ℝ) (period : ℕ) (mult : ℝ) {i : ℕ}
    (hi : i < prices.length) :
    (calculateKeltnerChannels prices period mult).upperBand.getD i none
        = (keltnerEntry prices period mult i).1 ∧
    (calculateKeltnerChannels prices period mult).middleBand.getD i none
        = (keltnerEntry prices period mult i).2.1 ∧
    (calculateKeltnerChannels prices period mult).lowerBand.getD i none
        = (keltnerEntry prices period mult i).2.2 := by
  unfold calculateKeltnerChannels
  refine ⟨?_, ?_, ?_⟩ <;>
    · dsimp only
      rw [List.map_map, getD_map_range _ _ hi]
      rfl

lemma bollingerEntry_eq (prices : List ℝ) (period : ℕ) (sd : ℝ) {i : ℕ}
    (hw : ¬ i < period - 1) :
    bollingerEntry prices period sd i =
      (some (smaAt prices period i + sd * Real.sqrt
        (((windowAt prices period i).map fun price =>
          (price - smaAt prices period i) ^ 2).sum / (period : ℝ))),
       some (smaAt prices period i),
       some (smaAt prices period i - sd * Real.sqrt
        (((windowAt prices period i).map fun price =>
          (price - smaAt prices period i) ^ 2).sum / (period : ℝ)))) := by
  simp only [bollingerEntry, if_neg hw]
  rfl

lemma keltnerEntry_eq (prices : List ℝ) (period : ℕ) (mult : ℝ) {i : ℕ}
    (hw : ¬ i < period - 1) :
    keltnerEntry prices period mult i =
      (some (smaAt prices period i + mult *
        (((diffs (windowAt prices period i)).map fun tr => |tr|).sum /
          ((((diffs (windowAt prices period i)).map fun tr => |tr|).length : ℕ) : ℝ))),
       some (smaAt prices period i),
       some (smaAt prices period i - mult *
        (((diffs (windowAt prices period i)).map fun tr => |tr|).sum /
          ((((diffs (windowAt prices period i)).map fun tr => |tr|).length : ℕ) : ℝ)))) := by
  simp only [keltnerEntry, if_neg hw]
  rfl

/-- C4: (with nonnegative multipliers) both bands are absent at every
position `i < period - 1`; at every later position all three band values
are defined, ordered `lower ≤ middle ≤ upper`, and the middle band is the
simple moving average `smaAt` of the same window. -/
theorem band_ordering_and_middle_sma (prices : List ℝ) (period : ℕ)
    (sd mult : ℝ) (hsd : 0 ≤ sd) (hmult : 0 ≤ mult) :
    ∀ i, i < prices.length →
      (i < period - 1 →
        (calculateBollingerBands prices period sd).upperBand.getD i none = none ∧
        (calculateBollingerBands prices period sd).middleBand.getD i none = none ∧
        (calculateBollingerBands prices period sd).lowerBand.getD i none = none ∧
        (calculateKeltnerChannels prices period mult).upperBand.getD i none = none ∧
        (calculateKeltnerChannels prices period mult).middleBand.getD i none = none ∧
        (calculateKeltnerChannels prices period mult).lowerBand.getD i none = none) ∧
      (period - 1 ≤ i →
        (∃ u m l,
          (calculateBollingerBands prices period sd).upperBand.getD i none = some u ∧
          (calculateBollingerBands prices period sd).middleBand.getD i none = some m ∧
          (calculateBollingerBands prices period sd).lowerBand.getD i none = some l ∧
          l ≤ m ∧ m ≤ u ∧ m = smaAt prices period i) ∧
        (∃ u m l,
          (calculateKeltnerChannels prices period mult).upperBand.getD i none = some u ∧
          (calculateKeltnerChannels prices period mult).middleBand.getD i none = some m ∧
          (calculateKeltnerChannels prices period mult).lowerBand.getD i none = some l ∧
          l ≤ m ∧ m ≤ u ∧ m = smaAt prices period i)) := by
  intro i hi
  obtain ⟨hbu, hbm, hbl⟩ := bollinger_getD prices period sd hi
  obtain ⟨hku, hkm, hkl⟩ := keltner_getD prices period mult hi
  constructor
  · intro hwarm
    rw [hbu, hbm, hbl, hku, hkm, hkl]
    simp [bollingerEntry, keltnerEntry, if_pos hwarm]
  · intro hdef
    have hw : ¬ i < period - 1 := not_lt.mpr hdef
    have hstd : (0 : ℝ) ≤ sd * Real.sqrt
        (((windowAt prices period i).map fun price =>
          (price - smaAt prices period i) ^ 2).sum / (period : ℝ)) :=
      mul_nonneg hsd (Real.sqrt_nonneg _)
    have hatr : (0 : ℝ) ≤ mult *
        (((diffs (windowAt prices period i)).map fun tr => |tr|).sum /
          ((((diffs (windowAt prices period i)).map fun tr => |tr|).length : ℕ) : ℝ)) := by
      refine mul_nonneg hmult (div_nonneg ?_ (Nat.cast_nonneg _))
      refine List.sum_nonneg fun x hx => ?_
      obtain ⟨a, -, rfl⟩ := List.mem_map.mp hx
      exact abs_nonneg a
    rw [hbu, hbm, hbl, hku, hkm, hkl, bollingerEntry_eq prices period sd hw,
      keltnerEntry_eq prices period mult hw]
    exact ⟨⟨_, _, _, rfl, rfl, rfl, sub_le_self _ hstd, le_add_of_nonneg_right hstd, rfl⟩,
      ⟨_, _, _, rfl, rfl, rfl, sub_le_self _ hatr, le_add_of_nonneg_right hatr, rfl⟩⟩

/-- C4 witness: `prices = [1, 2]`, `period = 2`, multipliers 2, at
position 1 (first full window). -/
theorem band_ordering_and_middle_sma_witness :
    ∃ u m l,
      (calculateBollingerBands [1, 2] 2 2).upperBand.getD 1 none = some u ∧
      (calculateBollingerBands [1, 2] 2 2).middleBand.getD 1 none = some m ∧
      (calculateBollingerBands [1, 2] 2 2).lowerBand.getD 1 none = some l ∧
      l ≤ m ∧ m ≤ u ∧ m = smaAt [1, 2] 2 1 :=
  (((band_ordering_and_middle_sma [1, 2] 2 2 2 (by norm_num) (by norm_num)) 1
    (by norm_num)).2 (by norm_num)).1

lemma ttm_getD (prices : List ℝ) (period : ℕ) (kcMultiplier bbMultiplier : ℝ)
    {i : ℕ} (hi : i < prices.length) :
    (calculateTTMSqueeze prices period kcMultiplier bbMultiplier).squeeze.getD i false
        = (ttmEntry prices period kcMultiplier bbMultiplier i).2.2.2 ∧
    (calculateTTMSqueeze prices period kcMultiplier bbMultiplier).momentum.getD i none
        = (ttmEntry prices period kcMultiplier bbMultiplier i).2.2.1 ∧
    (calculateTTMSqueeze prices period kcMultiplier bbMultiplier).upperBand.getD i none
        = (ttmEntry prices period kcMultiplier bbMultiplier i).1 ∧
    (calculateTTMSqueeze prices period kcMultiplier bbMultiplier).lowerBand.getD i none
        = (ttmEntry prices period kcMultiplier bbMultiplier i).2.1 := by
  unfold calculateTTMSqueeze
  refine ⟨?_, ?_, ?_, ?_⟩ <;>
    · dsimp only
      rw [List.map_map, getD_map_range _ _ hi]
      rfl

/-- C10: the squeeze flag array has exactly one boolean per input position
and holds the literal `false` (not an absent marker) at every warm-up
position `i < period - 1`, while the momentum and band outputs at those
positions are absent. -/
theorem ttm_squeeze_warmup_flags (prices : List ℝ) (period : ℕ)
    (kcMultiplier bbMultiplier : ℝ) :
    (calculateTTMSqueeze prices period kcMultiplier bbMultiplier).squeeze.length
        = prices.length ∧
    (calculateTTMSqueeze prices period kcMultiplier bbMultiplier).momentum.length
        = prices.length ∧
    ∀ i, i < prices.length → i < period - 1 →
      (calculateTTMSqueeze prices period kcMultiplier bbMultiplier).squeeze.getD i false
          = false ∧
      (calculateTTMSqueeze prices period kcMultiplier bbMultiplier).momentum.getD i none
          = none ∧
      (calculateTTMSqueeze prices period kcMultiplier bbMultiplier).upperBand.getD i none
          = none ∧
      (calculateTTMSqueeze prices period kcMultiplier bbMultiplier).lowerBand.getD i none
          = none := by
  refine ⟨by simp [calculateTTMSqueeze], by simp [calculateTTMSqueeze], ?_⟩
  intro i hi hwarm
  obtain ⟨h1, h2, h3, h4⟩ := ttm_getD prices period kcMultiplier bbMultiplier hi
  have he : ttmEntry prices period kcMultiplier bbMultiplier i
      = (none, none, none, false) := by
    simp only [ttmEntry, if_pos hwarm]
  rw [h1, h2, h3, h4, he]
  exact ⟨rfl, rfl, rfl, rfl⟩

/-- C10 witness: a one-point series with the default period 20. -/
theorem ttm_squeeze_warmup_flags_witness :
    (calculateTTMSqueeze [1] 20 1.5 2).squeeze.length = 1 ∧
    (calculateTTMSqueeze [1] 20 1.5 2).squeeze.getD 0 false = false ∧
    (calculateTTMSqueeze [1] 20 1.5 2).momentum.getD 0 none = none := by
  have h := ttm_squeeze_warmup_flags [1] 20 1.5 2
  have h0 := h.2.2 0 (by norm_num) (by norm_num)
  exact ⟨by simpa using h.1, h0.1, h0.2.1⟩

lemma length_wildersAux (period : ℕ) (prev : ℚ) (l : List ℚ) :
    (wildersAux period prev l).length = l.length := by
  induction l generalizing prev with
  | nil => rfl
  | cons v vs ih => simp [wildersAux, ih]

lemma length_wildersSmoothing (values : List ℚ) (period : ℕ)
    (h : period ≤ values.length) :
    (wildersSmoothing values period).length = values.length - period + 1 := by
  unfold wildersSmoothing
  rw [if_neg (not_lt.mpr h)]
  simp [length_wildersAux]

lemma length_diffs (prices : List ℚ) : (diffs prices).length = prices.length - 1 := by
  simp only [diffs, List.length_zipWith, List.length_tail]
  omega

lemma length_dmiTriples (prices : List ℚ) (period : ℕ)
    (h : period + 1 ≤ prices.length) :
    (dmiTriples prices period).length = prices.length - period := by
  unfold dmiTriples dmiSmoothedTR dmiSmoothedPlusDM dmiSmoothedMinusDM
  rw [List.length_zipWith, List.length_zip,
    length_wildersSmoothing _ _ (by simp [length_diffs]; omega),
    length_wildersSmoothing _ _ (by simp [length_diffs]; omega),
    length_wildersSmoothing _ _ (by simp [length_diffs]; omega)]
  simp [length_diffs]
  omega

lemma length_dmiAdxValues (prices : List ℚ) (period : ℕ)
    (h : 2 * period ≤ prices.length) (hp : 1 ≤ period) :
    (dmiAdxValues prices period).length = prices.length - 2 * period + 1 := by
  unfold dmiAdxValues
  rw [length_wildersSmoothing _ _
    (by simp [dmiDxValues, length_dmiTriples prices period (by omega)]; omega)]
  simp [dmiDxValues, length_dmiTriples prices period (by omega)]
  omega

/-- C6 counterexample: `prices = [1, 2, 1, 2]` and Wilder length `N = 2`
satisfy `len = 4 ≥ 2N`, yet ADX at index `2N - 1 = 3` is absent (the
`diIndex >= adxValues.length` guard compares the DI index, not the ADX
index, against the ADX array length, so the first ADX value only appears
when `len ≥ 3N - 1`). -/
theorem dmi_adx_first_index_counterexample :
    2 * 2 ≤ ([1, 2, 1, 2] : List ℚ).length ∧
    (calculateDMI [1, 2, 1, 2] 2).adx.getD (2 * 2 - 1) none = none := by
  constructor
  · norm_num
  · norm_num [calculateDMI, dmiAdxValues, dmiDxValues, dmiTriples, dmiSmoothedTR,
      dmiSmoothedPlusDM, dmiSmoothedMinusDM, dmiPlusDIValues, diffs,
      wildersSmoothing, wildersAux, dmPair, diTriple, List.range_succ]

/-- C6 (amended): for `1 ≤ N` and `len ≥ 2N`, `+DI`/`-DI` are absent
before index `N` and defined from index `N` on; ADX is absent before index
`2N - 1`, and its first defined position is `2N - 1` exactly when
`len ≥ 3N - 1` — for `2N ≤ len < 3N - 1` the ADX output is absent at every
position. -/
theorem dmi_alignment (prices : List ℚ) (period : ℕ) (hp : 1 ≤ period)
    (hlen : 2 * period ≤ prices.length) :
    (∀ i, i < period →
      (calculateDMI prices period).plusDI.getD i none = none ∧
      (calculateDMI prices period).minusDI.getD i none = none) ∧
    (∀ i, period ≤ i → i < prices.length →
      ((calculateDMI prices period).plusDI.getD i none).isSome ∧
      ((calculateDMI prices period).minusDI.getD i none).isSome) ∧
    (∀ i, i < 2 * period - 1 →
      (calculateDMI prices period).adx.getD i none = none) ∧
    (3 * period - 1 ≤ prices.length →
      ((calculateDMI prices period).adx.getD (2 * period - 1) none).isSome) ∧
    (prices.length < 3 * period - 1 → ∀ i, i < prices.length →
      (calculateDMI prices period).adx.getD i none = none) := by
  have hb : ¬ prices.length < period + 1 := by omega
  have hPlen : (dmiPlusDIValues prices period).length = prices.length - period := by
    simp [dmiPlusDIValues, length_dmiTriples prices period (by omega)]
  have hMlen : (dmiMinusDIValues prices period).length = prices.length - period := by
    simp [dmiMinusDIValues, length_dmiTriples prices period (by omega)]
  have hAlen : (dmiAdxValues prices period).length = prices.length - 2 * period + 1 :=
    length_dmiAdxValues prices period hlen hp
  have hplus : (calculateDMI prices period).plusDI
      = (List.range prices.length).map fun i =>
          if i < period then none
          else if i - period < (dmiPlusDIValues prices period).length then
            some ((dmiPlusDIValues prices period).getD (i - period) 0)
          else none := by
    simp only [calculateDMI, if_neg hb]
  have hminus : (calculateDMI prices period).minusDI
      = (List.range prices.length).map fun i =>
          if i < period then none
          else if i - period < (dmiMinusDIValues prices period).length then
            some ((dmiMinusDIValues prices period).getD (i - period) 0)
          else none := by
    simp only [calculateDMI, if_neg hb]
  have hadx : (calculateDMI prices period).adx
      = (List.range prices.length).map fun i =>
          if i < period then none
          else if i - period < (dmiPlusDIValues prices period).length then
            if i < period * 2 - 1 ∨ (dmiAdxValues prices period).length ≤ i - period then
              none
            else if i - period - (period - 1) < (dmiAdxValues prices period).length then
              some ((dmiAdxValues prices period).getD (i - period - (period - 1)) 0)
            else none
          else none := by
    simp only [calculateDMI, if_neg hb]
  refine ⟨fun i hi => ?_, fun i hge hi => ?_, fun i hi => ?_, fun h3 => ?_, fun h3 i hi => ?_⟩
  · have hi' : i < prices.length := by omega
    rw [hplus, getD_map_range _ _ hi', if_pos hi]
    rw [hminus, getD_map_range _ _ hi', if_pos hi]
    exact ⟨rfl, rfl⟩
  · constructor
    · rw [hplus, getD_map_range _ _ hi, if_neg (by omega),
        if_pos (by rw [hPlen]; omega)]
      rfl
    · rw [hminus, getD_map_range _ _ hi, if_neg (by omega),
        if_pos (by rw [hMlen]; omega)]
      rfl
  · have hi' : i < prices.length := by omega
    rw [hadx, getD_map_range _ _ hi']
    by_cases hip : i < period
    · rw [if_pos hip]
    · rw [if_neg hip, if_pos (by rw [hPlen]; omega), if_pos (by omega)]
  · have hi' : 2 * period - 1 < prices.length := by omega
    rw [hadx, getD_map_range _ _ hi', if_neg (by omega),
      if_pos (by rw [hPlen]; omega),
      if_neg (by rw [hAlen]; omega),
      if_pos (by rw [hAlen]; omega)]
    rfl
  · rw [hadx, getD_map_range _ _ hi]
    by_cases hip : i < period
    · rw [if_pos hip]
    · rw [if_neg hip, if_pos (by rw [hPlen]; omega),
        if_pos (by rw [hAlen]; omega)]

/-- C6 witness (amended claim): `N = 2` on a five-point series
(`len = 5 = 3N - 1`): DI absent at 1, ADX defined at `2N - 1 = 3`. -/
theorem dmi_alignment_witness :
    (calculateDMI [1, 2, 1, 2, 1] 2).plusDI.getD 1 none = none ∧
    ((calculateDMI [1, 2, 1, 2, 1] 2).adx.getD 3 none).isSome := by
  have h := dmi_alignment [1, 2, 1, 2, 1] 2 (by norm_num) (by norm_num)
  refine ⟨(h.1 1 (by norm_num)).1, ?_⟩
  have h4 := h.2.2.2.1 (by norm_num)
  simpa using h4

/-! ## Zone-detector lemmas and concrete evaluations -/

lemma range'_5_7 : List.range' 5 7 = [5, 6, 7, 8, 9, 10, 11] := by decide

lemma range'_11 (s : ℕ) : List.range' s 11
    = [s, s+1, s+2, s+3, s+4, s+5, s+6, s+7, s+8, s+9, s+10] := by
  simp [List.range'_succ]

lemma swingType_low_ne_high : SwingType.low ≠ SwingType.high := by decide

/-- The example series has exactly two swing points: lows `100` at index 5
and `101` at index 11. -/
lemma swing_example : swingPoints zoneExamplePrices 5
    = [(5, 100, SwingType.low), (11, 101, SwingType.low)] := by
  norm_num [swingPoints, isSwingHigh, isSwingLow, zoneExamplePrices,
    range'_5_7, range'_11, List.filterMap_cons, List.all_cons]

lemma zoneExamplePrices_length : zoneExamplePrices.length = 17 := by
  norm_num [zoneExamplePrices]

lemma zoneExampleDates_getElem5 : zoneExampleDates[5]? = some 5 := by decide

lemma zoneExampleDates_getElem11 : zoneExampleDates[11]? = some 11 := by decide

lemma zone_example_eval : calculateDemandSupplyZones zoneExamplePrices zoneExampleDates
    = ([{ price := 100, touches := 2, startDate := some 5, endDate := some 11 }], []) := by
  norm_num [calculateDemandSupplyZones, zoneExamplePrices_length, swing_example,
    zoneExampleDates_getElem5, zoneExampleDates_getElem11, swingType_low_ne_high,
    zoneStep, updateFirstMatch, sortByEndDateDesc, insertByEndDate, laterThan,
    List.filter_cons, List.foldl_cons]

lemma zone_example_eval_no_dates : calculateDemandSupplyZones zoneExamplePrices []
    = ([{ price := 100, touches := 2, startDate := none, endDate := none }], []) := by
  norm_num [calculateDemandSupplyZones, zoneExamplePrices_length, swing_example,
    swingType_low_ne_high,
    zoneStep, updateFirstMatch, sortByEndDateDesc, insertByEndDate, laterThan,
    List.filter_cons, List.foldl_cons]

lemma chain'_lt_getD (prices : List ℚ) (hmono : List.Chain' (· < ·) prices)
    {i : ℕ} (hi : i + 1 < prices.length) :
    prices.getD i 0 < prices.getD (i + 1) 0 := by
  rw [List.getD_eq_getElem?_getD, List.getD_eq_getElem?_getD,
    List.getElem?_eq_getElem (by omega), List.getElem?_eq_getElem hi]
  exact List.chain'_iff_get.mp hmono i (by omega)

/-- A strictly increasing series has no swing point: the right neighbour
kills every swing-high test and the left neighbour every swing-low test. -/
lemma swingPoints_of_chain' (prices : List ℚ)
    (hmono : List.Chain' (· < ·) prices) (h10 : ¬ prices.length < 10) :
    swingPoints prices 5 = [] := by
  rw [swingPoints, List.filterMap_eq_nil_iff]
  intro i hi
  rw [List.mem_range'_1] at hi
  have hi5 : 5 ≤ i := hi.1
  have hiub : i < prices.length - 5 := by omega
  have hhigh : isSwingHigh prices 5 i = false := by
    rw [isSwingHigh, List.all_eq_false]
    refine ⟨i + 1, ?_, ?_⟩
    · rw [List.mem_range'_1]
      omega
    · have hlt := chain'_lt_getD prices hmono (show i + 1 < prices.length by omega)
      simp only [decide_eq_true_eq, not_or]
      exact ⟨by omega, not_lt.mpr hlt.le⟩
  have hlow : isSwingLow prices 5 i = false := by
    rw [isSwingLow, List.all_eq_false]
    refine ⟨i - 1, ?_, ?_⟩
    · rw [List.mem_range'_1]
      omega
    · have heq : i - 1 + 1 = i := by omega
      have hlt := chain'_lt_getD prices hmono
        (show i - 1 + 1 < prices.length by omega)
      rw [heq] at hlt
      simp only [decide_eq_true_eq, not_or]
      exact ⟨by omega, not_lt.mpr hlt.le⟩
  simp [hhigh, hlow]

/-- C7: on a strictly monotonically increasing price series the zone
detector produces zero demand zones and zero supply zones. -/
theorem zone_detector_monotonic_empty (prices : List ℚ) (dates : List ℤ)
    (hmono : List.Chain' (· < ·) prices) :
    calculateDemandSupplyZones prices dates = ([], []) := by
  by_cases h10 : prices.length < 10
  · simp [calculateDemandSupplyZones, h10]
  · simp [calculateDemandSupplyZones, h10, swingPoints_of_chain' prices hmono h10,
      sortByEndDateDesc]

/-- C7 witness: a 12-point strictly increasing series. -/
theorem zone_detector_monotonic_empty_witness :
    calculateDemandSupplyZones [0, 1, 2, 3, 4, 5, 6, 7, 8, 9, 10, 11] [] = ([], []) :=
  zone_detector_monotonic_empty _ _ (by norm_num [List.chain'_cons])

/-- C8: when a swing point falls within tolerance of the `j`-th zone of the
list (and of no earlier zone), the matching loop returns the same list with
only zone `j` replaced — its touch count incremented and its end date
advanced, its price anchor and start date untouched; and on the example
series (swing lows 100 then 101, within 2%) the detector returns exactly
one demand zone with `touches = 2` anchored at the first low's price 100. -/
theorem zone_touch_anchor_immutable :
    (∀ (tolerance price : ℚ) (date : Option ℤ) (zones : List Zone) (j : ℕ),
      j < zones.length →
      (∀ k, k < j →
        ¬(|price - (zones.getD k default).price| / (zones.getD k default).price
            ≤ tolerance)) →
      |price - (zones.getD j default).price| / (zones.getD j default).price
          ≤ tolerance →
      updateFirstMatch tolerance price date zones
        = some (zones.set j { zones.getD j default with
            touches := (zones.getD j default).touches + 1, endDate := date })) ∧
    calculateDemandSupplyZones zoneExamplePrices zoneExampleDates
      = ([{ price := 100, touches := 2, startDate := some 5, endDate := some 11 }],
         []) := by
  refine ⟨fun tolerance price date => ?_, zone_example_eval⟩
  intro zones
  induction zones with
  | nil =>
    intro j hj _ _
    exact absurd hj (by simp)
  | cons z rest ih =>
    intro j hj hbefore hmatch
    cases j with
    | zero =>
      simp only [List.getD_cons_zero] at hmatch
      rw [updateFirstMatch, if_pos hmatch]
      simp
    | succ j =>
      have hz : ¬(|price - z.price| / z.price ≤ tolerance) := by
        have h0 := hbefore 0 (Nat.succ_pos j)
        simpa using h0
      rw [updateFirstMatch, if_neg hz]
      have hrec := ih j (by simpa using hj)
        (fun k hk => by simpa using hbefore (k + 1) (by omega))
        (by simpa using hmatch)
      rw [hrec]
      simp

/-- C8 witness: a second swing low at `101` touching a single existing zone
anchored at `100` with one touch. -/
theorem zone_touch_anchor_immutable_witness :
    updateFirstMatch (2 / 100) 101 (some 11)
        [{ price := 100, touches := 1, startDate := some 5, endDate := some 5 }]
      = some [{ price := 100, touches := 2, startDate := some 5, endDate := some 11 }] := by
  have h := zone_touch_anchor_immutable.1 (2 / 100) 101 (some 11)
    [{ price := 100, touches := 1, startDate := some 5, endDate := some 5 }] 0
    (by norm_num) (fun k hk => absurd hk (by omega))
    (by norm_num [List.getD_cons_zero])
  simpa using h

/-- C9 counterexample: called with a 17-point price series and an *empty*
date-label array (mismatched lengths), the zone detector raises no error
and silently produces a demand zone whose date fields are the JavaScript
`undefined` (`none`) — the opposite of failing fast. -/
theorem zone_no_failfast_counterexample :
    ([] : List ℤ).length ≠ zoneExamplePrices.length ∧
    calculateDemandSupplyZones zoneExamplePrices []
      = ([{ price := 100, touches := 2, startDate := none, endDate := none }], []) :=
  ⟨by rw [zoneExamplePrices_length]; norm_num, zone_example_eval_no_dates⟩

lemma mem_insertByEndDate {z w : Zone} {l : List Zone}
    (h : z ∈ insertByEndDate w l) : z = w ∨ z ∈ l := by
  induction l with
  | nil =>
    rw [insertByEndDate] at h
    exact Or.inl (by simpa using h)
  | cons a l ih =>
    rw [insertByEndDate] at h
    by_cases hc : laterThan w a = true
    · rw [if_pos hc] at h
      rcases List.mem_cons.mp h with h1 | h1
      · exact Or.inl h1
      · exact Or.inr h1
    · rw [if_neg hc] at h
      rcases List.mem_cons.mp h with h1 | h1
      · exact Or.inr (by simp [h1])
      · rcases ih h1 with h2 | h2
        · exact Or.inl h2
        · exact Or.inr (by simp [h2])

lemma mem_sortByEndDateDesc : ∀ {l : List Zone} {z : Zone},
    z ∈ sortByEndDateDesc l → z ∈ l := by
  intro l
  induction l with
  | nil =>
    intro z h
    simp [sortByEndDateDesc] at h
  | cons a l ih =>
    intro z h
    unfold sortByEndDateDesc at h
    rw [List.foldr_cons] at h
    rcases mem_insertByEndDate h with rfl | h1
    · exact List.mem_cons_self _ _
    · exact List.mem_cons_of_mem _ (ih h1)

lemma updateFirstMatch_none_dates (tolerance price : ℚ) :
    ∀ (zones l : List Zone),
      (∀ z ∈ zones, z.startDate = none ∧ z.endDate = none) →
      updateFirstMatch tolerance price none zones = some l →
      ∀ z ∈ l, z.startDate = none ∧ z.endDate = none := by
  intro zones
  induction zones with
  | nil =>
    intro l _ h
    simp [updateFirstMatch] at h
  | cons a rest ih =>
    intro l hall h
    rw [updateFirstMatch] at h
    by_cases hc : |price - a.price| / a.price ≤ tolerance
    · rw [if_pos hc] at h
      have hl := Option.some.inj h
      subst hl
      intro z hz
      rcases List.mem_cons.mp hz with rfl | hz
      · exact ⟨(hall a (List.mem_cons_self a rest)).1, rfl⟩
      · exact hall z (List.mem_cons_of_mem _ hz)
    · rw [if_neg hc] at h
      rcases hrec : updateFirstMatch tolerance price none rest with _ | l'
      · rw [hrec] at h
        simp at h
      · rw [hrec] at h
        simp only [Option.map_some'] at h
        have hl := Option.some.inj h
        subst hl
        intro z hz
        rcases List.mem_cons.mp hz with hza | hz
        · rw [hza]
          exact hall _ (List.mem_cons_self _ _)
        · exact ih l' (fun w hw => hall w (List.mem_cons_of_mem _ hw)) hrec z hz

lemma zoneStep_none_dates (tolerance : ℚ) (zones : List Zone) (p : ℕ × ℚ)
    (hall : ∀ z ∈ zones, z.startDate = none ∧ z.endDate = none) :
    ∀ z ∈ zoneStep tolerance [] zones p, z.startDate = none ∧ z.endDate = none := by
  unfold zoneStep
  have hnil : (([] : List ℤ))[p.1]? = none := by simp
  rw [hnil]
  rcases hrec : updateFirstMatch tolerance p.2 none zones with _ | l
  · intro z hz
    rcases List.mem_append.mp hz with hz | hz
    · exact hall z hz
    · simp only [List.mem_singleton] at hz
      subst hz
      exact ⟨rfl, rfl⟩
  · exact updateFirstMatch_none_dates tolerance p.2 zones l hall hrec

lemma foldl_zoneStep_none_dates (tolerance : ℚ) :
    ∀ (points : List (ℕ × ℚ)) (zones : List Zone),
      (∀ z ∈ zones, z.startDate = none ∧ z.endDate = none) →
      ∀ z ∈ points.foldl (zoneStep tolerance []) zones,
        z.startDate = none ∧ z.endDate = none := by
  intro points
  induction points with
  | nil =>
    intro zones h
    simpa using h
  | cons p points ih =>
    intro zones h
    rw [List.foldl_cons]
    exact ih _ (zoneStep_none_dates tolerance zones p h)

/-- C9 (amended): the zone detector has no fail-fast path for mismatched
price/date arrays — with an empty date array it completes normally for
every price series, every produced zone simply carrying absent
(`undefined`) start and end dates. -/
theorem zones_silent_on_missing_dates (prices : List ℚ) :
    (∀ z ∈ (calculateDemandSupplyZones prices []).1,
      z.startDate = none ∧ z.endDate = none) ∧
    (∀ z ∈ (calculateDemandSupplyZones prices []).2,
      z.startDate = none ∧ z.endDate = none) := by
  by_cases h10 : prices.length < 10
  · refine ⟨?_, ?_⟩ <;>
      · intro z hz
        rw [calculateDemandSupplyZones, if_pos h10] at hz
        simp at hz
  · refine ⟨?_, ?_⟩ <;>
      · intro z hz
        rw [calculateDemandSupplyZones, if_neg h10] at hz
        dsimp only at hz
        have h2 := mem_sortByEndDateDesc (List.take_subset _ _ hz)
        have h3 := (List.mem_filter.mp h2).1
        exact foldl_zoneStep_none_dates _ _ [] (by simp) z h3

/-- C9 witness: the zone the detector produced for the example series with
a mismatched empty date array indeed carries absent date fields. -/
theorem zones_silent_on_missing_dates_witness :
    ({ price := 100, touches := 2, startDate := none, endDate := none } : Zone).startDate
        = none ∧
    ({ price := 100, touches := 2, startDate := none, endDate := none } : Zone).endDate
        = none :=
  (zones_silent_on_missing_dates zoneExamplePrices).1
    { price := 100, touches := 2, startDate := none, endDate := none }
    (by rw [zone_example_eval_no_dates]; simp)

end OptionChain
